import Mathlib

/-!
Shallow embedding of `xds/internal/testutils/balancer.go` (package testutils
of grpc-go): the round-robin conformance checker `IsRoundRobin`, the mock
client connection `TestClientConn` with its bounded event channels, the
pre-allocated `TestSubConns` pool, the reference fixture `testConstBalancer`
and the constant picker `TestConstPicker`.

Go channels are modelled as FIFO lists (head = oldest element); a
non-blocking `select { case ch <- v: default: }` send becomes `trySend`,
and a non-blocking `select { case <-ch: default: }` receive becomes
`drainOne`.  A Go panic is modelled as the `.error` branch of
`Except GoPanic`.  The impure zero-argument pick function `f` of
`IsRoundRobin` is modelled as the stream of its successive return values,
`f : Nat -> alpha`, where `f i` is the value returned by the (i+1)-th call.
-/

set_option autoImplicit false
set_option linter.unusedVariables false

namespace GrpcTestutils

universe u

variable {α : Type u}

/-- Go run-time panics and explicit `panic(...)` calls. -/
inductive GoPanic where
  | notImplemented (msg : String)
  | indexOutOfRange (idx len : Nat)
  deriving DecidableEq, Repr

/-- Values of Go interface type `error` (other than the structured
round-robin errors, which get their own type below). -/
inductive GoError where
  | mk (msg : String)
  deriving DecidableEq, Repr

/-- The two error shapes produced by `IsRoundRobin` via `fmt.Errorf`:
phase-1 failure carries `want` and the partial first iteration;
phase-2 failure carries the first iteration and the partial second one. -/
inductive RRError (α : Type u) where
  | nonRoundRobin (want got : List α)
  | nonRepeating (firstIter secondIter : List α)
  deriving DecidableEq, Repr

/-- The multiset `wantSet` built by the first loop of `IsRoundRobin`:
`map[balancer.SubConn]int` with a missing key reading as `0`, incremented
once per occurrence in `want`. -/
def wantSet [DecidableEq α] (want : List α) : α → Int :=
  want.foldl (fun m sc => fun y => if y = sc then m y + 1 else m y) (fun _ => 0)

/-- First loop of `IsRoundRobin` (`for range want`): calls `f` once per
element of `want`, appends the result to `gotSliceFirstIteration`,
decrements its count in `wantSet` and fails as soon as a count goes
negative.  `n` is the number of remaining iterations, `i` the index of the
next call to `f`, `acc` the slice collected so far and `m` the current
count map. -/
def phase1 [DecidableEq α] (want : List α) (f : Nat → α) :
    Nat → Nat → List α → (α → Int) → Except (RRError α) (List α × (α → Int))
  | 0, _, acc, m => .ok (acc, m)
  | n + 1, i, acc, m =>
    let got := f i
    let acc' := acc ++ [got]
    let m' := fun y => if y = got then m y - 1 else m y
    if m' got < 0 then
      .error (.nonRoundRobin want acc')
    else
      phase1 want f n (i + 1) acc' m'

/-- One pass of the second loop of `IsRoundRobin`
(`for _, w := range gotSliceFirstIteration`): `ws` is the remaining part of
the reference cycle, `i` the index of the next call to `f`, `acc` the
`gotSliceSecondIteration` collected so far (it is shared between the two
passes in the Go code).  Returns the next call index and the accumulated
slice, or the phase-2 error on the first positional mismatch. -/
def phase2inner [DecidableEq α] (first : List α) (f : Nat → α) :
    List α → Nat → List α → Except (RRError α) (Nat × List α)
  | [], i, acc => .ok (i, acc)
  | w :: ws, i, acc =>
    let g := f i
    let acc' := acc ++ [g]
    if w ≠ g then
      .error (.nonRepeating first acc')
    else
      phase2inner first f ws (i + 1) acc'

/-- `IsRoundRobin(want, f)` from balancer.go: phase 1 checks that the first
`len(want)` picks are a permutation of `want`; phase 2 runs the loop body
twice more over the recorded reference cycle, comparing positionally.
Returns `.ok ()` for the Go `nil` error. -/
def IsRoundRobin [DecidableEq α] (want : List α) (f : Nat → α) :
    Except (RRError α) Unit :=
  match phase1 want f want.length 0 [] (wantSet want) with
  | .error e => .error e
  | .ok (first, _) =>
    match phase2inner first f first want.length [] with
    | .error e => .error e
    | .ok (i1, acc1) =>
      match phase2inner first f first i1 acc1 with
      | .error e => .error e
      | .ok _ => .ok ()

/-- The values `f` returns on calls `i, i+1, ..., i+n-1`. -/
def picksFrom (f : Nat → α) (i n : Nat) : List α :=
  (List.range n).map (fun t => f (i + t))

theorem picksFrom_zero_len (f : Nat → α) (i : Nat) : picksFrom f i 0 = [] := rfl

theorem picksFrom_succ (f : Nat → α) (i n : Nat) :
    picksFrom f i (n + 1) = f i :: picksFrom f (i + 1) n := by
  have h : ((fun t => f (i + t)) ∘ Nat.succ) = fun t => f (i + 1 + t) := by
    funext t
    simp only [Function.comp]
    congr 1
    omega
  simp [picksFrom, List.range_succ_eq_map, List.map_map, h]

theorem picksFrom_length (f : Nat → α) (i n : Nat) :
    (picksFrom f i n).length = n := by
  simp [picksFrom]

theorem picksFrom_start_zero (f : Nat → α) (n : Nat) :
    picksFrom f 0 n = (List.range n).map f := by
  simp [picksFrom]

theorem wantSet_eq_count [DecidableEq α] (want : List α) (x : α) :
    wantSet want x = (want.count x : Int) := by
  suffices h : ∀ (l : List α) (m : α → Int),
      l.foldl (fun m sc => fun y => if y = sc then m y + 1 else m y) m x
        = m x + (l.count x : Int) by
    simpa using h want (fun _ => 0)
  intro l
  induction l with
  | nil => intro m; simp
  | cons a l ih =>
    intro m
    rw [List.foldl_cons, ih]
    by_cases h : x = a
    · subst h
      simp [List.count_cons_self]
      omega
    · simp [h, List.count_cons_of_ne h]

theorem phase1_succ [DecidableEq α] (want : List α) (f : Nat → α)
    (n i : Nat) (acc : List α) (m : α → Int) :
    phase1 want f (n + 1) i acc m =
      if m (f i) - 1 < 0 then
        .error (.nonRoundRobin want (acc ++ [f i]))
      else
        phase1 want f n (i + 1) (acc ++ [f i])
          (fun y => if y = f i then m y - 1 else m y) := by
  show (if (if f i = f i then m (f i) - 1 else m (f i)) < 0 then _ else _) = _
  rw [if_pos (rfl : f i = f i)]

theorem phase1_ok_iff [DecidableEq α] (want : List α) (f : Nat → α) :
    ∀ (n i : Nat) (acc : List α) (m : α → Int), (∀ x, 0 ≤ m x) →
      ((∃ r, phase1 want f n i acc m = .ok r) ↔
        ∀ x, ((picksFrom f i n).count x : Int) ≤ m x) := by
  intro n
  induction n with
  | zero =>
    intro i acc m hm
    simp only [phase1, picksFrom_zero_len]
    constructor
    · intro _ x
      simpa using hm x
    · intro _
      exact ⟨(acc, m), rfl⟩
  | succ n ih =>
    intro i acc m hm
    rw [phase1_succ, picksFrom_succ]
    by_cases hneg : m (f i) - 1 < 0
    · rw [if_pos hneg]
      constructor
      · rintro ⟨r, hr⟩
        exact absurd hr (by simp)
      · intro h
        exfalso
        have h1 := h (f i)
        rw [List.count_cons_self] at h1
        push_cast at h1
        omega
    · rw [if_neg hneg]
      have hm' : ∀ x, 0 ≤ (fun y => if y = f i then m y - 1 else m y) x := by
        intro x
        by_cases hx : x = f i
        · subst hx; simp only [if_pos rfl]; omega
        · simp only [if_neg hx]; exact hm x
      rw [ih (i + 1) (acc ++ [f i]) _ hm']
      refine forall_congr' fun x => ?_
      by_cases hx : x = f i
      · subst hx
        simp only [List.count_cons_self, if_pos rfl]
        push_cast
        omega
      · simp [hx, List.count_cons_of_ne hx]

theorem phase1_ok_val [DecidableEq α] (want : List α) (f : Nat → α) :
    ∀ (n i : Nat) (acc : List α) (m : α → Int) (l : List α) (m2 : α → Int),
      phase1 want f n i acc m = .ok (l, m2) →
      l = acc ++ picksFrom f i n := by
  intro n
  induction n with
  | zero =>
    intro i acc m l m2 h
    simp only [phase1, Except.ok.injEq, Prod.mk.injEq] at h
    simp [picksFrom_zero_len, h.1.symm]
  | succ n ih =>
    intro i acc m l m2 h
    rw [phase1_succ] at h
    by_cases hneg : m (f i) - 1 < 0
    · rw [if_pos hneg] at h
      exact absurd h (by simp)
    · rw [if_neg hneg] at h
      have := ih (i + 1) (acc ++ [f i]) _ l m2 h
      rw [this, picksFrom_succ, List.append_assoc]
      rfl

theorem phase1_congr [DecidableEq α] (want : List α) (f g : Nat → α) :
    ∀ (n i : Nat) (acc : List α) (m : α → Int),
      (∀ t, t < n → g (i + t) = f (i + t)) →
      phase1 want g n i acc m = phase1 want f n i acc m := by
  intro n
  induction n with
  | zero => intro i acc m _; rfl
  | succ n ih =>
    intro i acc m hag
    have h0 : g i = f i := by
      have := hag 0 (by omega)
      simpa using this
    rw [phase1_succ, phase1_succ, h0]
    by_cases hneg : m (f i) - 1 < 0
    · rw [if_pos hneg, if_pos hneg]
    · rw [if_neg hneg, if_neg hneg]
      exact ih (i + 1) (acc ++ [f i]) (fun y => if y = f i then m y - 1 else m y)
        (fun t ht => by
          have := hag (t + 1) (by omega)
          have harith : i + (t + 1) = i + 1 + t := by omega
          rw [harith] at this
          exact this)

theorem phase1_err [DecidableEq α] (want : List α) (f : Nat → α) :
    ∀ (j n i : Nat) (acc : List α) (m : α → Int), j < n →
      (∀ x, ((picksFrom f i j).count x : Int) ≤ m x) →
      m (f (i + j)) < ((picksFrom f i (j + 1)).count (f (i + j)) : Int) →
      phase1 want f n i acc m =
        .error (.nonRoundRobin want (acc ++ picksFrom f i (j + 1))) := by
  intro j
  induction j with
  | zero =>
    intro n i acc m hjn _ hviol
    obtain ⟨n', rfl⟩ : ∃ n', n = n' + 1 := ⟨n - 1, by omega⟩
    rw [phase1_succ]
    have h1 : picksFrom f i 1 = [f i] := by
      rw [picksFrom_succ, picksFrom_zero_len]
    rw [h1] at hviol ⊢
    simp only [Nat.add_zero] at hviol
    rw [List.count_singleton] at hviol
    rw [if_pos (by simp at hviol; omega)]
  | succ j ih =>
    intro n i acc m hjn hok hviol
    obtain ⟨n', rfl⟩ : ∃ n', n = n' + 1 := ⟨n - 1, by omega⟩
    rw [phase1_succ]
    have hcons : picksFrom f i (j + 1) = f i :: picksFrom f (i + 1) j :=
      picksFrom_succ f i j
    have hok1 := hok (f i)
    rw [hcons, List.count_cons_self] at hok1
    rw [if_neg (by push_cast at hok1; omega)]
    have harr : i + (j + 1) = i + 1 + j := by omega
    have hcons2 : picksFrom f i (j + 1 + 1) = f i :: picksFrom f (i + 1) (j + 1) :=
      picksFrom_succ f i (j + 1)
    have hrec := ih n' (i + 1) (acc ++ [f i])
      (fun y => if y = f i then m y - 1 else m y)
      (by omega)
      (by
        intro x
        have hx := hok x
        rw [hcons] at hx
        by_cases he : x = f i
        · subst he
          rw [List.count_cons_self] at hx
          simp only [if_pos rfl]
          push_cast at hx ⊢
          omega
        · rw [List.count_cons_of_ne he] at hx
          simp only [if_neg he]
          exact hx)
      (by
        rw [harr] at hviol
        rw [hcons2] at hviol
        by_cases he : f (i + 1 + j) = f i
        · rw [he] at hviol ⊢
          rw [List.count_cons_self] at hviol
          simp only [if_pos rfl]
          push_cast at hviol ⊢
          omega
        · rw [List.count_cons_of_ne he] at hviol
          simp only [if_neg he]
          exact hviol)
    rw [hrec, hcons2, List.append_assoc]
    rfl

theorem phase2inner_cons [DecidableEq α] (first : List α) (f : Nat → α)
    (w : α) (ws : List α) (i : Nat) (acc : List α) :
    phase2inner first f (w :: ws) i acc =
      if w ≠ f i then
        .error (.nonRepeating first (acc ++ [f i]))
      else
        phase2inner first f ws (i + 1) (acc ++ [f i]) := rfl

theorem phase2inner_ok_iff [DecidableEq α] (first : List α) (f : Nat → α) :
    ∀ (ws : List α) (i : Nat) (acc : List α),
      (∃ r, phase2inner first f ws i acc = .ok r) ↔
        ∀ j, (h : j < ws.length) → ws.get ⟨j, h⟩ = f (i + j) := by
  intro ws
  induction ws with
  | nil =>
    intro i acc
    simp [phase2inner]
  | cons w ws ih =>
    intro i acc
    rw [phase2inner_cons]
    by_cases hw : w = f i
    · rw [if_neg (by simp [hw])]
      rw [ih (i + 1) (acc ++ [f i])]
      constructor
      · intro h j hj
        match j with
        | 0 => simpa using hw
        | j' + 1 =>
          have := h j' (by simpa using Nat.lt_of_succ_lt_succ hj)
          simpa [Nat.add_assoc, Nat.add_comm 1 j'] using this
      · intro h j hj
        have := h (j + 1) (by simpa using Nat.succ_lt_succ hj)
        simpa [Nat.add_assoc, Nat.add_comm 1 j] using this
    · rw [if_pos (by simp [hw])]
      constructor
      · rintro ⟨r, hr⟩
        exact absurd hr (by simp)
      · intro h
        exfalso
        exact hw (by simpa using h 0 (by simp))

theorem phase2inner_ok_val [DecidableEq α] (first : List α) (f : Nat → α) :
    ∀ (ws : List α) (i : Nat) (acc : List α) (i2 : Nat) (acc2 : List α),
      phase2inner first f ws i acc = .ok (i2, acc2) →
      i2 = i + ws.length := by
  intro ws
  induction ws with
  | nil =>
    intro i acc i2 acc2 h
    simp only [phase2inner, Except.ok.injEq, Prod.mk.injEq] at h
    obtain ⟨rfl, -⟩ := h
    simp
  | cons w ws ih =>
    intro i acc i2 acc2 h
    rw [phase2inner_cons] at h
    by_cases hw : w ≠ f i
    · rw [if_pos hw] at h
      exact absurd h (by simp)
    · rw [if_neg hw] at h
      have := ih (i + 1) (acc ++ [f i]) i2 acc2 h
      simp only [List.length_cons]
      omega

theorem phase2inner_congr [DecidableEq α] (first : List α) (f g : Nat → α) :
    ∀ (ws : List α) (i : Nat) (acc : List α),
      (∀ j, j < ws.length → g (i + j) = f (i + j)) →
      phase2inner first g ws i acc = phase2inner first f ws i acc := by
  intro ws
  induction ws with
  | nil => intro i acc _; rfl
  | cons w ws ih =>
    intro i acc hag
    have h0 : g i = f i := by simpa using hag 0 (by simp)
    rw [phase2inner_cons, phase2inner_cons, h0]
    by_cases hw : w ≠ f i
    · rw [if_pos hw, if_pos hw]
    · rw [if_neg hw, if_neg hw]
      exact ih (i + 1) (acc ++ [f i]) (fun j hj => by
        have := hag (j + 1) (by simpa using Nat.succ_lt_succ hj)
        simpa [Nat.add_assoc, Nat.add_comm 1 j] using this)

theorem picksFrom_get (f : Nat → α) (i n j : Nat)
    (h : j < (picksFrom f i n).length) :
    (picksFrom f i n).get ⟨j, h⟩ = f (i + j) := by
  simp [picksFrom, List.get_eq_getElem]

theorem count_le_iff_perm [DecidableEq α] (picks want : List α)
    (hlen : picks.length = want.length) :
    (∀ x, ((picks.count x : Int) ≤ (want.count x : Int))) ↔ picks.Perm want := by
  constructor
  · intro h
    have hle : (picks : Multiset α) ≤ (want : Multiset α) := by
      rw [Multiset.le_iff_count]
      intro a
      rw [Multiset.coe_count, Multiset.coe_count]
      exact_mod_cast h a
    have hcard : Multiset.card (want : Multiset α) ≤ Multiset.card (picks : Multiset α) := by
      simp [hlen]
    have := Multiset.eq_of_le_of_card_le hle hcard
    exact_mod_cast Multiset.coe_eq_coe.mp this
  · intro h x
    exact_mod_cast (h.count_eq x).le

theorem repeat_iff (f : Nat → α) (n : Nat) :
    ((∀ j, j < n → f j = f (n + j)) ∧ (∀ j, j < n → f j = f (2 * n + j))) ↔
      (∀ k, k < 2 * n → f (n + k) = f (k % n)) := by
  constructor
  · rintro ⟨hB, hC⟩ k hk
    by_cases hkn : k < n
    · rw [Nat.mod_eq_of_lt hkn]
      exact (hB k hkn).symm
    · have h1 : n ≤ k := le_of_not_lt hkn
      have hk2 : k - n < n := by omega
      have hmod : k % n = k - n := by
        rw [Nat.mod_eq_sub_mod h1, Nat.mod_eq_of_lt hk2]
      rw [hmod]
      have hidx : n + k = 2 * n + (k - n) := by omega
      rw [hidx]
      exact (hC (k - n) hk2).symm
  · intro h
    constructor
    · intro j hj
      have := h j (by omega)
      rw [Nat.mod_eq_of_lt hj] at this
      exact this.symm
    · intro j hj
      have := h (n + j) (by omega)
      rw [Nat.add_mod_left, Nat.mod_eq_of_lt hj] at this
      have hidx : n + (n + j) = 2 * n + j := by omega
      rw [hidx] at this
      exact this.symm

theorem IsRoundRobin_ok_iff [DecidableEq α] (want : List α) (f : Nat → α) :
    IsRoundRobin want f = .ok () ↔
      (((List.range want.length).map f).Perm want ∧
        ∀ k, k < 2 * want.length → f (want.length + k) = f (k % want.length)) := by
  have hm : ∀ x, 0 ≤ wantSet want x := by
    intro x
    rw [wantSet_eq_count]
    exact_mod_cast Nat.zero_le _
  have hphase1 : (∃ r, phase1 want f want.length 0 [] (wantSet want) = .ok r) ↔
      (picksFrom f 0 want.length).Perm want := by
    rw [phase1_ok_iff want f want.length 0 [] (wantSet want) hm]
    rw [← count_le_iff_perm _ _ (by rw [picksFrom_length])]
    refine forall_congr' fun x => ?_
    rw [wantSet_eq_count]
  rw [← picksFrom_start_zero]
  cases h1 : phase1 want f want.length 0 [] (wantSet want) with
  | error e =>
    simp only [IsRoundRobin, h1]
    constructor
    · intro habs
      exact absurd habs (by simp)
    · rintro ⟨hp, -⟩
      obtain ⟨r, hr⟩ := hphase1.mpr hp
      rw [h1] at hr
      exact absurd hr (by simp)
  | ok p =>
    obtain ⟨first, m2⟩ := p
    have hfirst : first = picksFrom f 0 want.length := by
      have := phase1_ok_val want f want.length 0 [] (wantSet want) first m2 h1
      simpa using this
    subst hfirst
    have hPerm : (picksFrom f 0 want.length).Perm want := hphase1.mp ⟨_, h1⟩
    have hlen : (picksFrom f 0 want.length).length = want.length :=
      picksFrom_length f 0 want.length
    have hcond1 : (∃ r, phase2inner (picksFrom f 0 want.length) f
          (picksFrom f 0 want.length) want.length [] = .ok r) ↔
        ∀ j, j < want.length → f j = f (want.length + j) := by
      rw [phase2inner_ok_iff]
      constructor
      · intro h j hj
        have hj' : j < (picksFrom f 0 want.length).length := by
          rw [hlen]
          exact hj
        have := h j hj'
        rw [picksFrom_get] at this
        simpa using this
      · intro h j hj
        rw [picksFrom_get]
        have hj' : j < want.length := by
          rw [← hlen]
          exact hj
        simpa using h j hj'
    simp only [IsRoundRobin, h1]
    cases h2 : phase2inner (picksFrom f 0 want.length) f
        (picksFrom f 0 want.length) want.length [] with
    | error e =>
      constructor
      · intro habs
        exact absurd habs (by simp)
      · rintro ⟨-, hrep⟩
        have hB : ∀ j, j < want.length → f j = f (want.length + j) := by
          intro j hj
          have := hrep j (by omega)
          rw [Nat.mod_eq_of_lt hj] at this
          exact this.symm
        obtain ⟨r, hr⟩ := hcond1.mpr hB
        rw [h2] at hr
        exact absurd hr (by simp)
    | ok q =>
      obtain ⟨i1, acc1⟩ := q
      simp only []
      have hi1 : i1 = want.length + want.length := by
        have := phase2inner_ok_val _ f _ want.length [] i1 acc1 h2
        rw [hlen] at this
        exact this
      have hcond2 : (∃ r, phase2inner (picksFrom f 0 want.length) f
            (picksFrom f 0 want.length) i1 acc1 = .ok r) ↔
          ∀ j, j < want.length → f j = f (2 * want.length + j) := by
        rw [phase2inner_ok_iff]
        constructor
        · intro h j hj
          have hj' : j < (picksFrom f 0 want.length).length := by
            rw [hlen]
            exact hj
          have := h j hj'
          rw [picksFrom_get, hi1] at this
          have hidx : want.length + want.length + j = 2 * want.length + j := by omega
          rw [hidx] at this
          simpa using this
        · intro h j hj
          rw [picksFrom_get, hi1]
          have hj' : j < want.length := by
            rw [← hlen]
            exact hj
          have := h j hj'
          have hidx : want.length + want.length + j = 2 * want.length + j := by omega
          rw [hidx]
          simpa using this
      cases h3 : phase2inner (picksFrom f 0 want.length) f
          (picksFrom f 0 want.length) i1 acc1 with
      | error e =>
        constructor
        · intro habs
          exact absurd habs (by simp)
        · rintro ⟨-, hrep⟩
          have hC : ∀ j, j < want.length → f j = f (2 * want.length + j) := by
            intro j hj
            have := hrep (want.length + j) (by omega)
            rw [Nat.add_mod_left, Nat.mod_eq_of_lt hj] at this
            have hidx : want.length + (want.length + j) = 2 * want.length + j := by
              omega
            rw [hidx] at this
            exact this.symm
          obtain ⟨r, hr⟩ := hcond2.mpr hC
          rw [h3] at hr
          exact absurd hr (by simp)
      | ok r =>
        have hB : ∀ j, j < want.length → f j = f (want.length + j) :=
          hcond1.mp ⟨_, h2⟩
        have hC : ∀ j, j < want.length → f j = f (2 * want.length + j) :=
          hcond2.mp ⟨_, h3⟩
        constructor
        · intro _
          exact ⟨hPerm, (repeat_iff f want.length).mp ⟨hB, hC⟩⟩
        · intro _
          rfl

theorem IsRoundRobin_congr [DecidableEq α] (want : List α) (f g : Nat → α)
    (hag : ∀ t, t < 3 * want.length → g t = f t) :
    IsRoundRobin want g = IsRoundRobin want f := by
  have h1 := phase1_congr want f g want.length 0 [] (wantSet want)
    (fun t ht => by simpa using hag t (by omega))
  simp only [IsRoundRobin, h1]
  cases hp : phase1 want f want.length 0 [] (wantSet want) with
  | error e => rfl
  | ok p =>
    obtain ⟨first, m2⟩ := p
    simp only []
    have hfirst := phase1_ok_val want f want.length 0 [] (wantSet want) first m2 hp
    have hlen : first.length = want.length := by
      rw [hfirst]
      simpa using picksFrom_length f 0 want.length
    have h2 := phase2inner_congr first f g first want.length []
      (fun j hj => hag (want.length + j) (by rw [hlen] at hj; omega))
    rw [h2]
    cases hq : phase2inner first f first want.length [] with
    | error e => rfl
    | ok q =>
      obtain ⟨i1, acc1⟩ := q
      simp only []
      have hi1 := phase2inner_ok_val first f first want.length [] i1 acc1 hq
      have h3 := phase2inner_congr first f g first i1 acc1
        (fun j hj => hag (i1 + j) (by rw [hlen] at hj; rw [hi1, hlen]; omega))
      rw [h3]

theorem wantSet_nonneg [DecidableEq α] (want : List α) (x : α) :
    0 ≤ wantSet want x := by
  rw [wantSet_eq_count]
  exact_mod_cast Nat.zero_le _

theorem picksFrom_congr (f g : Nat → α) (i n : Nat)
    (h : ∀ t, t < n → g (i + t) = f (i + t)) :
    picksFrom g i n = picksFrom f i n := by
  simp only [picksFrom]
  apply List.map_congr_left
  intro t ht
  exact h t (List.mem_range.mp ht)

theorem IsRoundRobin_phase1_err [DecidableEq α] (want : List α) (f : Nat → α)
    (j : Nat) (hj : j < want.length)
    (hok : ∀ x, (picksFrom f 0 j).count x ≤ want.count x)
    (hviol : want.count (f j) < (picksFrom f 0 (j + 1)).count (f j)) :
    ∀ g : Nat → α, (∀ t, t ≤ j → g t = f t) →
      IsRoundRobin want g = .error (.nonRoundRobin want (picksFrom f 0 (j + 1))) := by
  intro g hag
  have hpick : picksFrom g 0 (j + 1) = picksFrom f 0 (j + 1) :=
    picksFrom_congr f g 0 (j + 1) (fun t ht => by simpa using hag t (by omega))
  have hpickj : picksFrom g 0 j = picksFrom f 0 j :=
    picksFrom_congr f g 0 j (fun t ht => by simpa using hag t (by omega))
  have hgj : g j = f j := hag j le_rfl
  have herr := phase1_err want g j want.length 0 [] (wantSet want) hj
    (by
      intro x
      rw [hpickj, wantSet_eq_count]
      exact_mod_cast hok x)
    (by
      rw [wantSet_eq_count]
      simp only [Nat.zero_add]
      rw [hgj, hpick]
      exact_mod_cast hviol)
  simp only [IsRoundRobin, herr, List.nil_append, hpick]

/-- Claim C1: `IsRoundRobin(want, pick)` returns nil exactly when the first
`len(want)` picks form the multiset `want` (in some order) and the next
`2 * len(want)` picks repeat, position by position modulo `len(want)`, the
sequence recorded in the first cycle; moreover the result is determined by
the first `3 * len(want)` pick values, so on success pick is consulted
exactly `3 * len(want)` times (phase 1 consumes indices `0..len-1` and
phase 2 indices `len..3*len-1`). -/
theorem claim_C1 [DecidableEq α] (want : List α) (f : Nat → α) :
    (IsRoundRobin want f = .ok () ↔
      (((List.range want.length).map f).Perm want ∧
        ∀ k, k < 2 * want.length → f (want.length + k) = f (k % want.length))) ∧
    (∀ g : Nat → α, (∀ t, t < 3 * want.length → g t = f t) →
      IsRoundRobin want g = IsRoundRobin want f) :=
  ⟨IsRoundRobin_ok_iff want f, fun g hg => IsRoundRobin_congr want f g hg⟩

theorem claim_C1_witness :
    IsRoundRobin [0, 1, 2] (fun i => i % 3) = .ok () :=
  (claim_C1 [0, 1, 2] (fun i => i % 3)).1.mpr (by decide)

/-- Claim C7: if during phase 1 the `j`-th pick makes its remaining count go
negative (counts were still within bounds after the first `j` picks), then
`IsRoundRobin` fails with the phase-1 error carrying `want` and the observed
picks up to and including the offending one, and the result does not depend
on any pick past index `j` (no further calls are made). -/
theorem claim_C7 [DecidableEq α] (want : List α) (f : Nat → α)
    (j : Nat) (hj : j < want.length)
    (hok : ∀ x, ((List.range j).map f).count x ≤ want.count x)
    (hviol : want.count (f j) < ((List.range (j + 1)).map f).count (f j)) :
    ∀ g : Nat → α, (∀ t, t ≤ j → g t = f t) →
      IsRoundRobin want g =
        .error (.nonRoundRobin want ((List.range (j + 1)).map f)) := by
  rw [← picksFrom_start_zero] at hok hviol ⊢
  exact IsRoundRobin_phase1_err want f j hj hok hviol

theorem claim_C7_witness :
    IsRoundRobin [false, false, true] (fun _ => false) =
      .error (.nonRoundRobin [false, false, true] [false, false, false]) := by
  have h := claim_C7 [false, false, true] (fun _ => false) 2
    (by decide) (by decide) (by decide) (fun _ => false) (fun t _ => rfl)
  have hl : ((List.range (2 + 1)).map (fun _ : Nat => false)) = [false, false, false] := by
    decide
  rw [hl] at h
  exact h

/-! Embedding of the mock client connection `TestClientConn`, the
pre-allocated pool `TestSubConns`, the fixture balancer `testConstBalancer`
and the constant picker `TestConstPicker`. -/

/-- Number of `TestSubConn`s initialized as part of package init. -/
def TestSubConnsCount : Nat := 16

/-- A `TestSubConn`: identified by its `id` string. -/
structure TestSubConn where
  id : String
  deriving DecidableEq, Repr

/-- The global pool built by `init`: handles with ids `sc0` .. `sc15`. -/
def TestSubConns : List TestSubConn :=
  (List.range TestSubConnsCount).map (fun i => ⟨"sc" ++ toString i⟩)

theorem TestSubConns_length : TestSubConns.length = TestSubConnsCount := by
  simp [TestSubConns]

/-- The `i`-th pool handle (total version used in specifications; inside the
pool bound it agrees with the Go indexing `TestSubConns[i]`). -/
def poolAt (k : Nat) : TestSubConn :=
  TestSubConns.getD k ⟨""⟩

/-- `connectivity.State` of package connectivity. -/
inductive ConnectivityState where
  | idle
  | connecting
  | ready
  | transientFailure
  | shutdown
  deriving DecidableEq, Repr

/-- `balancer.State`: the aggregated (connectivity state, picker) pair. -/
structure BalancerState (Picker : Type) where
  connectivityState : ConnectivityState
  picker : Picker
  deriving DecidableEq

/-- `balancer.NewSubConnOptions` (no field is consulted by the mock). -/
structure NewSubConnOptions where
  deriving DecidableEq

/-- `resolver.ResolveNowOptions` (never consulted: `ResolveNow` panics). -/
structure ResolveNowOptions where
  deriving DecidableEq

/-- State of a `TestClientConn`: its five channels, modelled as FIFO lists
(head = oldest buffered element), and the creation cursor `subConnIdx`.
The channel capacities fixed by `NewTestClientConn` (10 for the three
history channels, 1 for the latest-state and latest-picker channels) appear
at the use sites of `trySend` below.  `Addr` stands for `resolver.Address`
and `Picker` for `balancer.Picker`, both opaque to this code. -/
structure TCCState (Addr Picker : Type) where
  newSubConnAddrsCh : List (List Addr)
  newSubConnCh : List TestSubConn
  removeSubConnCh : List TestSubConn
  newPickerCh : List Picker
  newStateCh : List ConnectivityState
  subConnIdx : Nat
  deriving DecidableEq

variable {Addr Picker : Type}

/-- `NewTestClientConn`: all channels empty, cursor at 0. -/
def NewTestClientConn (Addr Picker : Type) : TCCState Addr Picker :=
  { newSubConnAddrsCh := []
    newSubConnCh := []
    removeSubConnCh := []
    newPickerCh := []
    newStateCh := []
    subConnIdx := 0 }

/-- Non-blocking send `select { case ch <- v: default: }` on a channel of
capacity `cap`: append if there is room, otherwise drop `v` silently. -/
def trySend {β : Type u} (cap : Nat) (ch : List β) (v : β) : List β :=
  if ch.length < cap then ch ++ [v] else ch

/-- Non-blocking receive `select { case <-ch: default: }`: discard the
oldest buffered element if any. -/
def drainOne {β : Type u} : List β → List β
  | [] => []
  | _ :: t => t

/-- `TestClientConn.NewSubConn`: reads `TestSubConns[tcc.subConnIdx]`
(a Go run-time panic when the cursor has passed the pool's end), increments
the cursor, pushes the addresses and the handle on their capacity-10
history channels non-blockingly, and returns `(sc, nil)`. -/
def TCCState.NewSubConn (s : TCCState Addr Picker) (a : List Addr)
    (o : NewSubConnOptions) :
    Except GoPanic (TCCState Addr Picker × TestSubConn × Option GoError) :=
  if h : s.subConnIdx < TestSubConns.length then
    let sc := TestSubConns.get ⟨s.subConnIdx, h⟩
    .ok ({ s with
            subConnIdx := s.subConnIdx + 1
            newSubConnAddrsCh := trySend 10 s.newSubConnAddrsCh a
            newSubConnCh := trySend 10 s.newSubConnCh sc },
          sc, none)
  else
    .error (.indexOutOfRange s.subConnIdx TestSubConns.length)

/-- `TestClientConn.RemoveSubConn`: push the handle on the capacity-10
removal history channel non-blockingly. -/
def TCCState.RemoveSubConn (s : TCCState Addr Picker) (sc : TestSubConn) :
    TCCState Addr Picker :=
  { s with removeSubConnCh := trySend 10 s.removeSubConnCh sc }

/-- `TestClientConn.UpdateState`: drain the capacity-1 latest-state channel
non-blockingly and send the new connectivity state, then do the same for
the latest-picker channel.  (The blocking sends can never block here: after
the drain a capacity-1 channel that held at most one element is empty.) -/
def TCCState.UpdateState (s : TCCState Addr Picker) (bs : BalancerState Picker) :
    TCCState Addr Picker :=
  { s with
    newStateCh := drainOne s.newStateCh ++ [bs.connectivityState]
    newPickerCh := drainOne s.newPickerCh ++ [bs.picker] }

/-- `TestClientConn.UpdateBalancerState` panics unconditionally. -/
def TCCState.UpdateBalancerState (s : TCCState Addr Picker)
    (st : ConnectivityState) (p : Picker) : Except GoPanic Unit :=
  .error (.notImplemented "not implemented")

/-- `TestClientConn.ResolveNow` panics unconditionally. -/
def TCCState.ResolveNow (s : TCCState Addr Picker) (o : ResolveNowOptions) :
    Except GoPanic Unit :=
  .error (.notImplemented "not implemented")

/-- `TestClientConn.Target` panics unconditionally. -/
def TCCState.Target (s : TCCState Addr Picker) : Except GoPanic String :=
  .error (.notImplemented "not implemented")

/-- `resolver.State` (only the address list is consulted here). -/
structure ResolverState (Addr : Type) where
  addresses : List Addr
  deriving DecidableEq

/-- `balancer.ClientConnState`. -/
structure ClientConnState (Addr : Type) where
  resolverState : ResolverState Addr
  deriving DecidableEq

/-- `testConstBalancer.UpdateClientConnState`: a no-op on an empty address
list, otherwise calls `NewSubConn` on its `cc` (here: the threaded
`TCCState`) and returns nil, discarding the handle. -/
def testConstBalancer.UpdateClientConnState (s : TCCState Addr Picker)
    (ccs : ClientConnState Addr) :
    Except GoPanic (TCCState Addr Picker × Option GoError) :=
  if ccs.resolverState.addresses.length = 0 then
    .ok (s, none)
  else
    match s.NewSubConn ccs.resolverState.addresses {} with
    | .error p => .error p
    | .ok (s', _, _) => .ok (s', none)

/-- `testConstBalancer.ResolverError` panics unconditionally. -/
def testConstBalancer.ResolverError (e : Option GoError) : Except GoPanic Unit :=
  .error (.notImplemented "not implemented")

/-- `testConstBalancer.Close` is a no-op. -/
def testConstBalancer.Close : Unit := ()

/-- Error returned by the test const picker (`ErrTestConstPicker`). -/
def ErrTestConstPicker : GoError := .mk "const picker error"

/-- `TestConstPicker`: a const picker holding an optional error and an
optional `SubConn` (both Go interface values, hence nilable). -/
structure TestConstPicker where
  Err : Option GoError
  SC : Option TestSubConn
  deriving DecidableEq

/-- `balancer.PickInfo` (not consulted by the const picker). -/
structure PickInfo where
  deriving DecidableEq

/-- `balancer.PickResult` as used by this code: only the `SubConn` field. -/
structure PickResult where
  SubConn : Option TestSubConn
  deriving DecidableEq

/-- `TestConstPicker.Pick`: the error if one is set, else the const
`SubConn`. -/
def TestConstPicker.Pick (tcp : TestConstPicker) (info : PickInfo) :
    PickResult × Option GoError :=
  match tcp.Err with
  | some e => ({ SubConn := none }, some e)
  | none => ({ SubConn := tcp.SC }, none)

/-- `testConstBalancer.UpdateSubConnState`: publishes Ready paired with a
const picker carrying `ErrTestConstPicker`, whatever the notification. -/
def testConstBalancer.UpdateSubConnState (s : TCCState Addr TestConstPicker)
    (sc : TestSubConn) (state : ConnectivityState) :
    TCCState Addr TestConstPicker :=
  s.UpdateState { connectivityState := .ready
                  picker := { Err := some ErrTestConstPicker, SC := none } }

/-- Sequence of `NewSubConn` calls (one per address list, with empty
options), collecting the `(handle, error)` results in order; a Go panic
aborts the run. -/
def runCreates (s : TCCState Addr Picker) :
    List (List Addr) →
      Except GoPanic (TCCState Addr Picker × List (TestSubConn × Option GoError))
  | [] => .ok (s, [])
  | a :: rest =>
    match s.NewSubConn a {} with
    | .error p => .error p
    | .ok (s', sc, e) =>
      match runCreates s' rest with
      | .error p => .error p
      | .ok (s'', l) => .ok (s'', (sc, e) :: l)

theorem poolAt_eq_get (k : Nat) (h : k < TestSubConns.length) :
    poolAt k = TestSubConns.get ⟨k, h⟩ := by
  simp [poolAt, List.getD_eq_getElem, h]

theorem foldl_trySend {β : Type u} (cap : Nat) :
    ∀ (evs q : List β), q.length ≤ cap →
      evs.foldl (trySend cap) q = (q ++ evs).take cap := by
  intro evs
  induction evs with
  | nil =>
    intro q hq
    simp [List.take_of_length_le hq]
  | cons e evs ih =>
    intro q hq
    rw [List.foldl_cons]
    by_cases hfull : q.length < cap
    · rw [show trySend cap q e = q ++ [e] from if_pos hfull]
      rw [ih (q ++ [e]) (by simp; omega)]
      simp
    · have hlen : q.length = cap := by omega
      rw [show trySend cap q e = q from if_neg hfull]
      rw [ih q hq]
      rw [List.take_append_of_le_length (by omega),
        List.take_append_of_le_length (by omega)]

theorem removeSubConn_foldl :
    ∀ (scs : List TestSubConn) (s : TCCState Addr Picker),
      (scs.foldl TCCState.RemoveSubConn s).removeSubConnCh =
        scs.foldl (trySend 10) s.removeSubConnCh := by
  intro scs
  induction scs with
  | nil => intro s; rfl
  | cons sc scs ih =>
    intro s
    rw [List.foldl_cons, List.foldl_cons, ih]
    rfl

theorem runCreates_ok :
    ∀ (addrs : List (List Addr)) (s : TCCState Addr Picker),
      s.subConnIdx + addrs.length ≤ TestSubConns.length →
      ∃ s', runCreates s addrs =
          .ok (s', (picksFrom poolAt s.subConnIdx addrs.length).map
            (fun sc => (sc, (none : Option GoError)))) ∧
        s'.subConnIdx = s.subConnIdx + addrs.length ∧
        s'.newSubConnAddrsCh = addrs.foldl (trySend 10) s.newSubConnAddrsCh ∧
        s'.newSubConnCh =
          (picksFrom poolAt s.subConnIdx addrs.length).foldl (trySend 10)
            s.newSubConnCh ∧
        s'.removeSubConnCh = s.removeSubConnCh ∧
        s'.newPickerCh = s.newPickerCh ∧
        s'.newStateCh = s.newStateCh := by
  intro addrs
  induction addrs with
  | nil =>
    intro s h
    exact ⟨s, by simp [runCreates, picksFrom_zero_len], by simp, rfl,
      by simp [picksFrom_zero_len], rfl, rfl, rfl⟩
  | cons a rest ih =>
    intro s h
    rw [List.length_cons] at h
    have hidx : s.subConnIdx < TestSubConns.length := by omega
    have hsc : poolAt s.subConnIdx = TestSubConns.get ⟨s.subConnIdx, hidx⟩ :=
      poolAt_eq_get s.subConnIdx hidx
    have hnew : s.NewSubConn a {} = .ok ({ s with
        subConnIdx := s.subConnIdx + 1
        newSubConnAddrsCh := trySend 10 s.newSubConnAddrsCh a
        newSubConnCh := trySend 10 s.newSubConnCh
          (TestSubConns.get ⟨s.subConnIdx, hidx⟩) },
        TestSubConns.get ⟨s.subConnIdx, hidx⟩, none) := by
      simp [TCCState.NewSubConn, hidx]
    obtain ⟨s', hrun, hidx', hach, hcch, hrch, hpch, hsch⟩ := ih
      { s with
        subConnIdx := s.subConnIdx + 1
        newSubConnAddrsCh := trySend 10 s.newSubConnAddrsCh a
        newSubConnCh := trySend 10 s.newSubConnCh
          (TestSubConns.get ⟨s.subConnIdx, hidx⟩) }
      (by simp only []; omega)
    refine ⟨s', ?_, ?_, ?_, ?_, ?_, ?_, ?_⟩
    · simp only [runCreates, hnew]
      rw [hrun]
      simp only [List.length_cons, picksFrom_succ, hsc, List.map_cons]
    · simp only [List.length_cons]
      simp only [] at hidx'
      omega
    · rw [hach, List.foldl_cons]
    · rw [hcch]
      simp only [List.length_cons, picksFrom_succ, List.foldl_cons, hsc]
    · exact hrch
    · exact hpch
    · exact hsch

/-- Claim C6: starting from a fresh `TestClientConn`, any sequence of at
most `TestSubConnsCount` `NewSubConn` calls returns the pool's handles in
index order `0, 1, 2, ...` and a nil error on every call. -/
theorem claim_C6 {Addr Picker : Type} (addrs : List (List Addr))
    (h : addrs.length ≤ TestSubConnsCount) :
    ∃ s', runCreates (NewTestClientConn Addr Picker) addrs =
      .ok (s', (List.range addrs.length).map
        (fun k => (poolAt k, (none : Option GoError)))) := by
  obtain ⟨s', hrun, -, -, -, -, -, -⟩ :=
    runCreates_ok addrs (NewTestClientConn Addr Picker)
      (by rw [TestSubConns_length]; simpa [NewTestClientConn] using h)
  refine ⟨s', ?_⟩
  rw [hrun]
  have : picksFrom poolAt (NewTestClientConn Addr Picker).subConnIdx addrs.length
      = (List.range addrs.length).map poolAt := by
    simpa [NewTestClientConn] using picksFrom_start_zero poolAt addrs.length
  rw [this, List.map_map]
  rfl

theorem claim_C6_witness :
    ∃ s', runCreates (NewTestClientConn Nat Nat) [[0], [1], [2]] =
      .ok (s', (List.range 3).map
        (fun k => (poolAt k, (none : Option GoError)))) :=
  claim_C6 [[0], [1], [2]] (by decide)

/-- Claim C10: after `TestSubConnsCount` (16) creations on a fresh
`TestClientConn` the cursor equals the pool size, and the next `NewSubConn`
call hits the out-of-range indexing `TestSubConns[16]` — a Go panic, not a
returned handle or error value. -/
theorem claim_C10 {Addr Picker : Type} (addrs : List (List Addr))
    (h : addrs.length = TestSubConnsCount) (a : List Addr)
    (o : NewSubConnOptions) :
    ∃ s' l, runCreates (NewTestClientConn Addr Picker) addrs = .ok (s', l) ∧
      s'.subConnIdx = TestSubConnsCount ∧
      s'.NewSubConn a o =
        .error (.indexOutOfRange TestSubConnsCount TestSubConnsCount) := by
  obtain ⟨s', hrun, hidx, -, -, -, -, -⟩ :=
    runCreates_ok addrs (NewTestClientConn Addr Picker)
      (by rw [TestSubConns_length]; simp [NewTestClientConn, h])
  have hidx16 : s'.subConnIdx = TestSubConnsCount := by
    simpa [NewTestClientConn, h] using hidx
  refine ⟨s', _, hrun, hidx16, ?_⟩
  rw [TCCState.NewSubConn,
    dif_neg (by rw [hidx16, TestSubConns_length]; omega), hidx16,
    TestSubConns_length]

theorem claim_C10_witness :
    ∃ s' l, runCreates (NewTestClientConn Nat Nat)
        ((List.range 16).map (fun k => [k])) = .ok (s', l) ∧
      s'.subConnIdx = TestSubConnsCount ∧
      s'.NewSubConn [99] {} =
        .error (.indexOutOfRange TestSubConnsCount TestSubConnsCount) :=
  claim_C10 ((List.range 16).map (fun k => [k])) (by decide) [99] {}

/-- Claim C3 as stated is false: pushing 11 address lists through a fresh
recorder's capacity-10 creation-address channel retains the **oldest** 10
events, not the most recent 10. -/
theorem claim_C3_counterexample :
    ((runCreates (NewTestClientConn Nat Nat)
        [[0], [1], [2], [3], [4], [5], [6], [7], [8], [9], [10]]).map
      (fun p => p.1.newSubConnAddrsCh)
        = .ok [[0], [1], [2], [3], [4], [5], [6], [7], [8], [9]]) ∧
    ([[0], [1], [2], [3], [4], [5], [6], [7], [8], [9]] : List (List Nat)) ≠
      [[1], [2], [3], [4], [5], [6], [7], [8], [9], [10]] :=
  ⟨rfl, by decide⟩

/-- Claim C3, amended: for the creation-address, handle-created and
handle-removed history queues (capacity 10), pushing more events than the
capacity retains the **first** (oldest) `capacity` events in FIFO order,
with the newest events silently dropped. -/
theorem claim_C3_amended (Addr Picker : Type) :
    (∀ scs : List TestSubConn,
      (scs.foldl TCCState.RemoveSubConn
        (NewTestClientConn Addr Picker)).removeSubConnCh = scs.take 10) ∧
    (∀ addrs : List (List Addr), addrs.length ≤ TestSubConnsCount →
      ∃ s' l, runCreates (NewTestClientConn Addr Picker) addrs = .ok (s', l) ∧
        s'.newSubConnAddrsCh = addrs.take 10 ∧
        s'.newSubConnCh = ((List.range addrs.length).map poolAt).take 10) := by
  constructor
  · intro scs
    rw [removeSubConn_foldl]
    simp only [NewTestClientConn]
    rw [foldl_trySend 10 scs [] (by simp)]
    rfl
  · intro addrs h
    obtain ⟨s', hrun, -, hach, hcch, -, -, -⟩ :=
      runCreates_ok addrs (NewTestClientConn Addr Picker)
        (by rw [TestSubConns_length]; simpa [NewTestClientConn] using h)
    refine ⟨s', _, hrun, ?_, ?_⟩
    · rw [hach]
      simp only [NewTestClientConn]
      rw [foldl_trySend 10 addrs [] (by simp)]
      rfl
    · rw [hcch]
      have hpool : picksFrom poolAt (NewTestClientConn Addr Picker).subConnIdx
          addrs.length = (List.range addrs.length).map poolAt := by
        simpa [NewTestClientConn] using picksFrom_start_zero poolAt addrs.length
      rw [hpool]
      simp only [NewTestClientConn]
      rw [foldl_trySend 10 ((List.range addrs.length).map poolAt) [] (by simp)]
      rfl

theorem claim_C3_amended_witness :
    ∃ s' l, runCreates (NewTestClientConn Nat Nat)
        ((List.range 11).map (fun k => [k])) = .ok (s', l) ∧
      s'.newSubConnAddrsCh = ((List.range 11).map (fun k => [k])).take 10 ∧
      s'.newSubConnCh = ((List.range 11).map poolAt).take 10 :=
  (claim_C3_amended Nat Nat).2 ((List.range 11).map (fun k => [k])) (by decide)

/-- Claim C4: a push attempted on a full history queue drops the new event
silently and leaves the previously buffered (oldest) events unchanged; the
operation returns normally (for `NewSubConn`, still with a handle and a nil
error). -/
theorem claim_C4 (Addr Picker : Type) :
    (∀ (s : TCCState Addr Picker) (sc : TestSubConn),
      10 ≤ s.removeSubConnCh.length →
      s.RemoveSubConn sc = s) ∧
    (∀ (s : TCCState Addr Picker) (a : List Addr) (o : NewSubConnOptions),
      s.subConnIdx < TestSubConns.length →
      10 ≤ s.newSubConnAddrsCh.length → 10 ≤ s.newSubConnCh.length →
      ∃ sc, s.NewSubConn a o =
        .ok ({ s with subConnIdx := s.subConnIdx + 1 }, sc, none)) := by
  constructor
  · intro s sc hfull
    show { s with removeSubConnCh := trySend 10 s.removeSubConnCh sc } = s
    rw [show trySend 10 s.removeSubConnCh sc = s.removeSubConnCh from
      if_neg (by omega)]
  · intro s a o hidx hfull1 hfull2
    refine ⟨TestSubConns.get ⟨s.subConnIdx, hidx⟩, ?_⟩
    rw [TCCState.NewSubConn, dif_pos hidx]
    simp only []
    rw [show trySend 10 s.newSubConnAddrsCh a = s.newSubConnAddrsCh from
      if_neg (by omega)]
    rw [show trySend 10 s.newSubConnCh
        (TestSubConns.get ⟨s.subConnIdx, hidx⟩) = s.newSubConnCh from
      if_neg (by omega)]

theorem claim_C4_witness :
    ((NewTestClientConn Nat Nat).RemoveSubConn ⟨"z"⟩ ≠ NewTestClientConn Nat Nat) ∧
    ({ NewTestClientConn Nat Nat with
        removeSubConnCh := List.replicate 10 ⟨"q"⟩ }.RemoveSubConn ⟨"z"⟩ =
      { NewTestClientConn Nat Nat with
        removeSubConnCh := List.replicate 10 ⟨"q"⟩ }) ∧
    (∃ sc, TCCState.NewSubConn
        ({ NewTestClientConn Nat Nat with
          newSubConnAddrsCh := List.replicate 10 [7]
          newSubConnCh := List.replicate 10 ⟨"q"⟩ } : TCCState Nat Nat) [3] {} =
      .ok ({ NewTestClientConn Nat Nat with
              newSubConnAddrsCh := List.replicate 10 [7]
              newSubConnCh := List.replicate 10 ⟨"q"⟩
              subConnIdx := 1 }, sc, none)) := by
  refine ⟨by decide, (claim_C4 Nat Nat).1 _ ⟨"z"⟩ (by decide), ?_⟩
  obtain ⟨sc, hsc⟩ := (claim_C4 Nat Nat).2
    { NewTestClientConn Nat Nat with
      newSubConnAddrsCh := List.replicate 10 [7]
      newSubConnCh := List.replicate 10 ⟨"q"⟩ } [3] {}
    (by rw [TestSubConns_length]; decide) (by decide) (by decide)
  exact ⟨sc, hsc⟩

theorem updateClientConnState_nonempty (s : TCCState Addr Picker)
    (ccs : ClientConnState Addr)
    (hne : ccs.resolverState.addresses.length ≠ 0)
    (hidx : s.subConnIdx < TestSubConns.length) :
    testConstBalancer.UpdateClientConnState s ccs = .ok ({ s with
        subConnIdx := s.subConnIdx + 1
        newSubConnAddrsCh := trySend 10 s.newSubConnAddrsCh
          ccs.resolverState.addresses
        newSubConnCh := trySend 10 s.newSubConnCh
          (TestSubConns.get ⟨s.subConnIdx, hidx⟩) }, none) := by
  rw [testConstBalancer.UpdateClientConnState, if_neg hne]
  have hnew : s.NewSubConn ccs.resolverState.addresses {} = .ok ({ s with
      subConnIdx := s.subConnIdx + 1
      newSubConnAddrsCh := trySend 10 s.newSubConnAddrsCh
        ccs.resolverState.addresses
      newSubConnCh := trySend 10 s.newSubConnCh
        (TestSubConns.get ⟨s.subConnIdx, hidx⟩) },
      TestSubConns.get ⟨s.subConnIdx, hidx⟩, none) := by
    simp [TCCState.NewSubConn, hidx]
  rw [hnew]

theorem updateCCS_step (s : TCCState Addr Picker) (ccs : ClientConnState Addr)
    (hne : ccs.resolverState.addresses ≠ [])
    (hidx : s.subConnIdx < TestSubConns.length) :
    ∃ t, testConstBalancer.UpdateClientConnState s ccs = .ok (t, none) ∧
      t.subConnIdx = s.subConnIdx + 1 :=
  ⟨_, updateClientConnState_nonempty s ccs
    (by simpa [List.length_eq_zero] using hne) hidx, rfl⟩

/-- Claim C2 as stated is false: the fixture balancer keeps no
created-connection state, so a second non-empty address update triggers a
second `NewSubConn` call — the creation cursor reaches 2, not 1. -/
theorem claim_C2_counterexample :
    (((testConstBalancer.UpdateClientConnState (NewTestClientConn Nat Nat)
        { resolverState := { addresses := [5] } }).bind
      (fun p => testConstBalancer.UpdateClientConnState p.1
        { resolverState := { addresses := [5] } })).map
      (fun p => p.1.subConnIdx) = .ok 2) ∧ (2 : Nat) ≠ 1 :=
  ⟨rfl, by decide⟩

/-- Claim C2, amended: `testConstBalancer.UpdateClientConnState` calls
`NewSubConn` on **every** update carrying at least one address (it is not
idempotent), so two consecutive non-empty updates produce exactly two
`CreateConnection` calls, one per update. -/
theorem claim_C2_amended (s : TCCState Addr Picker)
    (ccs1 ccs2 : ClientConnState Addr)
    (h1 : ccs1.resolverState.addresses ≠ [])
    (h2 : ccs2.resolverState.addresses ≠ [])
    (hroom : s.subConnIdx + 2 ≤ TestSubConns.length) :
    ∃ s1 s2,
      testConstBalancer.UpdateClientConnState s ccs1 = .ok (s1, none) ∧
      s1.subConnIdx = s.subConnIdx + 1 ∧
      testConstBalancer.UpdateClientConnState s1 ccs2 = .ok (s2, none) ∧
      s2.subConnIdx = s.subConnIdx + 2 := by
  obtain ⟨s1, e1, hi1⟩ := updateCCS_step s ccs1 h1 (by omega)
  obtain ⟨s2, e2, hi2⟩ := updateCCS_step s1 ccs2 h2 (by omega)
  exact ⟨s1, s2, e1, hi1, e2, by omega⟩

theorem claim_C2_amended_witness :
    ∃ s1 s2,
      testConstBalancer.UpdateClientConnState (NewTestClientConn Nat Nat)
        { resolverState := { addresses := [5] } } = .ok (s1, none) ∧
      s1.subConnIdx = (NewTestClientConn Nat Nat).subConnIdx + 1 ∧
      testConstBalancer.UpdateClientConnState s1
        { resolverState := { addresses := [6, 7] } } = .ok (s2, none) ∧
      s2.subConnIdx = (NewTestClientConn Nat Nat).subConnIdx + 2 :=
  claim_C2_amended (NewTestClientConn Nat Nat)
    { resolverState := { addresses := [5] } }
    { resolverState := { addresses := [6, 7] } }
    (by decide) (by decide) (by rw [TestSubConns_length]; decide)

theorem drainOne_of_len_le_one {β : Type u} (l : List β) (h : l.length ≤ 1) :
    drainOne l = [] := by
  match l with
  | [] => rfl
  | [a] => rfl
  | a :: b :: t => simp at h

/-- Claim C5: after any sequence of one or more `UpdateState` calls on a
recorder whose latest-state and latest-picker channels hold at most one
element (as every reachable recorder state does), each of the two channels
contains exactly the value of the most recent publication: the previously
buffered value is drained before the new one is inserted. -/
theorem claim_C5 (s : TCCState Addr Picker)
    (h1 : s.newStateCh.length ≤ 1) (h2 : s.newPickerCh.length ≤ 1)
    (us : List (BalancerState Picker)) (b : BalancerState Picker) :
    ((us ++ [b]).foldl TCCState.UpdateState s).newStateCh =
      [b.connectivityState] ∧
    ((us ++ [b]).foldl TCCState.UpdateState s).newPickerCh = [b.picker] := by
  induction us generalizing s with
  | nil =>
    constructor
    · show drainOne s.newStateCh ++ [b.connectivityState] = [b.connectivityState]
      rw [drainOne_of_len_le_one s.newStateCh h1]
      rfl
    · show drainOne s.newPickerCh ++ [b.picker] = [b.picker]
      rw [drainOne_of_len_le_one s.newPickerCh h2]
      rfl
  | cons u us ih =>
    rw [List.cons_append, List.foldl_cons]
    refine ih (s.UpdateState u) ?_ ?_
    · show (drainOne s.newStateCh ++ [u.connectivityState]).length ≤ 1
      rw [drainOne_of_len_le_one s.newStateCh h1]
      rfl
    · show (drainOne s.newPickerCh ++ [u.picker]).length ≤ 1
      rw [drainOne_of_len_le_one s.newPickerCh h2]
      rfl

theorem claim_C5_witness :
    ((([⟨.idle, 0⟩, ⟨.connecting, 3⟩] : List (BalancerState Nat)) ++
          ([⟨.ready, 7⟩] : List (BalancerState Nat))).foldl
        TCCState.UpdateState (NewTestClientConn Nat Nat)).newStateCh =
      [ConnectivityState.ready] ∧
    ((([⟨.idle, 0⟩, ⟨.connecting, 3⟩] : List (BalancerState Nat)) ++
          ([⟨.ready, 7⟩] : List (BalancerState Nat))).foldl
        TCCState.UpdateState (NewTestClientConn Nat Nat)).newPickerCh = [7] :=
  claim_C5 (NewTestClientConn Nat Nat) (by decide) (by decide)
    [⟨.idle, 0⟩, ⟨.connecting, 3⟩] ⟨.ready, 7⟩

/-- Claim C8 as stated is false at the const picker whose error and
`SubConn` are both nil (both Go interface zero values): its `Pick` returns
an empty result and a nil error, so neither alternative is populated. -/
theorem claim_C8_counterexample :
    ¬ (((TestConstPicker.Pick ⟨none, none⟩ {}).1.SubConn ≠ none ∧
          (TestConstPicker.Pick ⟨none, none⟩ {}).2 = none) ∨
        ((TestConstPicker.Pick ⟨none, none⟩ {}).2 ≠ none ∧
          (TestConstPicker.Pick ⟨none, none⟩ {}).1.SubConn = none)) := by
  decide

/-- Claim C8, amended: for every `TestConstPicker` with at least one of
`Err` and `SC` set, `Pick` populates exactly one alternative — the error
(with an empty result) when `Err` is non-nil, else the `SubConn` (with a
nil error); it never populates both, and only the all-nil picker populates
neither. -/
theorem claim_C8_amended (tcp : TestConstPicker) (info : PickInfo)
    (h : tcp.Err ≠ none ∨ tcp.SC ≠ none) :
    ((tcp.Pick info).1.SubConn ≠ none ∧ (tcp.Pick info).2 = none) ∨
      ((tcp.Pick info).2 ≠ none ∧ (tcp.Pick info).1.SubConn = none) := by
  match htcp : tcp with
  | ⟨some e, sc⟩ =>
    right
    exact ⟨by simp [TestConstPicker.Pick], by simp [TestConstPicker.Pick]⟩
  | ⟨none, sc⟩ =>
    left
    rcases h with he | hsc
    · exact absurd rfl he
    · exact ⟨by simpa [TestConstPicker.Pick] using hsc,
        by simp [TestConstPicker.Pick]⟩

theorem claim_C8_amended_witness :
    (((TestConstPicker.Pick ⟨some ErrTestConstPicker, none⟩ {}).1.SubConn ≠ none ∧
        (TestConstPicker.Pick ⟨some ErrTestConstPicker, none⟩ {}).2 = none) ∨
      ((TestConstPicker.Pick ⟨some ErrTestConstPicker, none⟩ {}).2 ≠ none ∧
        (TestConstPicker.Pick ⟨some ErrTestConstPicker, none⟩ {}).1.SubConn = none)) :=
  claim_C8_amended ⟨some ErrTestConstPicker, none⟩ {} (by decide)

/-- Claim C9: the four explicitly unsupported operations —
`UpdateBalancerState`, `ResolveNow`, `Target` and the fixture's
`ResolverError` — panic unconditionally, for every receiver state and every
argument, and never return normally. -/
theorem claim_C9 (Addr Picker : Type) :
    (∀ (s : TCCState Addr Picker) (st : ConnectivityState) (p : Picker),
      s.UpdateBalancerState st p = .error (.notImplemented "not implemented")) ∧
    (∀ (s : TCCState Addr Picker) (o : ResolveNowOptions),
      s.ResolveNow o = .error (.notImplemented "not implemented")) ∧
    (∀ s : TCCState Addr Picker,
      s.Target = .error (.notImplemented "not implemented")) ∧
    (∀ e : Option GoError,
      testConstBalancer.ResolverError e =
        .error (.notImplemented "not implemented")) :=
  ⟨fun _ _ _ => rfl, fun _ _ => rfl, fun _ => rfl, fun _ => rfl⟩

end GrpcTestutils
